import Mathlib

/-!
A verification development for the `disstate` event-dispatch layer
(`pkg/state`, revision embedded from the event handler source).

The Go source is shallowly embedded: reflection-based dynamic dispatch is
modelled by a closed type `Ty` of the `reflect.Type` values the dispatcher
distinguishes, registration tables become association lists, and the
side-effecting middleware/handler calls become pure functions that record
which callbacks (ErrorHandler / PanicHandler) fire and which handlers are
launched.  Machine integers do not overflow in any modelled path (serial
numbers and intents are far below 2^64), so they are embedded as `Nat`.
-/

namespace Disstate

/-- The closed set of concrete event struct types the dispatcher routes
(one per `*XxxEvent` pointer type appearing in the source).  `other n`
stands for the remaining event types that carry no gateway intent. -/
inductive EvType
  | ready
  | guildCreate | guildDelete
  | guildAvailable | guildReady | guildJoin | guildUnavailable | guildLeave
  | guildUpdate
  | guildRoleCreate | guildRoleUpdate | guildRoleDelete
  | channelCreate | channelUpdate | channelDelete | channelPinsUpdate
  | guildMemberAdd | guildMemberRemove | guildMemberUpdate
  | guildBanAdd | guildBanRemove
  | guildEmojisUpdate | guildIntegrationsUpdate
  | webhooksUpdate
  | inviteCreate | inviteDelete
  | voiceStateUpdate | presenceUpdate
  | messageCreate | messageUpdate | messageDelete | messageDeleteBulk
  | messageReactionAdd | messageReactionRemove
  | messageReactionRemoveAll | messageReactionRemoveEmoji
  | typingStart
  | other (n : Nat)
deriving DecidableEq, Repr

/-- The `reflect.Type` values the event handler distinguishes:
`state` is `*State` (`stateType`), `iface` is `interface{}`
(`interfaceType`), `base` is `*Base` (`baseType`), `ev t` is the pointer
type of an event struct, `fn arg` is the type of a two-parameter
`func(*State, arg)` with no results (the only func shape ever inserted
into the handler table), `chanOf elem` is a channel type, and `errIface`
is the `error` interface type. -/
inductive Ty
  | state
  | iface
  | base
  | ev (t : EvType)
  | fn (arg : Ty)
  | chanOf (elem : Ty)
  | errIface
deriving DecidableEq, Repr

/-! ## Global middlewares

`EventHandler.AddGlobalMiddleware` stamps each middleware with the next
serial (`currentSerial`, incremented under the write lock) and appends it
to `globalMiddlewares[et]` where `et` is the middleware's second parameter
type.  `callGlobalMiddlewares` then merges the `interface{}`, `*Base` and
typed lists by repeatedly invoking the front middleware with the smallest
serial.  A middleware's observable behaviour at call time is abstracted by
`MwRet`. -/

/-- Outcome of invoking one middleware: it returns `nil` (or has no return
value), returns the sentinel `Filtered`, returns some other non-nil
error, or panics. -/
inductive MwRet
  | ok
  | filtered
  | err
  | panics
deriving DecidableEq, Repr

/-- A registered global middleware: its registration serial and its call
behaviour (the reflected function value is abstracted to its outcome). -/
structure GlobalMiddleware where
  serial : Nat
  ret : MwRet
deriving DecidableEq, Repr

/-- Result of one `callGlobalMiddlewares` run: the middlewares whose call
was actually made, in call order; whether the run told `Call` to abort;
and how many times the ErrorHandler and PanicHandler callbacks fired. -/
structure GMRun where
  invoked : List GlobalMiddleware
  abort : Bool
  errorReports : Nat
  panicReports : Nat
deriving DecidableEq, Repr

/-- One iteration of the `callGlobalMiddlewares` loop body after the next
middleware `m` has been selected: a panic is recovered into the
PanicHandler and aborts; `handleResult` aborts silently on `Filtered`,
reports any other non-nil error to the ErrorHandler and aborts; otherwise
the loop continues with `rest`. -/
def globalMiddlewareStep (m : GlobalMiddleware) (rest : GMRun) : GMRun :=
  match m.ret with
  | .panics => ⟨[m], true, 0, 1⟩
  | .filtered => ⟨[m], true, 0, 0⟩
  | .err => ⟨[m], true, 1, 0⟩
  | .ok => ⟨m :: rest.invoked, rest.abort, rest.errorReports, rest.panicReports⟩

/-- The order in which the `callGlobalMiddlewares` loop selects
middlewares from its three cursors: the `interface{}` front is the first
candidate, the `*Base` front replaces it when its serial is strictly
smaller, and the typed front replaces the current candidate when its
serial is strictly smaller; the loop stops when all cursors are
exhausted. -/
def mergeOrder : (il bl tl : List GlobalMiddleware) → List GlobalMiddleware
  | [], [], [] => []
  | i :: il, [], [] => i :: mergeOrder il [] []
  | [], b :: bl, [] => b :: mergeOrder [] bl []
  | [], [], t :: tl => t :: mergeOrder [] [] tl
  | i :: il, b :: bl, [] =>
    if b.serial < i.serial then b :: mergeOrder (i :: il) bl []
    else i :: mergeOrder il (b :: bl) []
  | i :: il, [], t :: tl =>
    if t.serial < i.serial then t :: mergeOrder (i :: il) [] tl
    else i :: mergeOrder il [] (t :: tl)
  | [], b :: bl, t :: tl =>
    if t.serial < b.serial then t :: mergeOrder [] (b :: bl) tl
    else b :: mergeOrder [] bl (t :: tl)
  | i :: il, b :: bl, t :: tl =>
    if b.serial < i.serial then
      if t.serial < b.serial then t :: mergeOrder (i :: il) (b :: bl) tl
      else b :: mergeOrder (i :: il) bl (t :: tl)
    else
      if t.serial < i.serial then t :: mergeOrder (i :: il) (b :: bl) tl
      else i :: mergeOrder il (b :: bl) (t :: tl)
termination_by il bl tl => il.length + bl.length + tl.length

/-- Sequential execution of an already-merged middleware sequence:
invoke each in order, stopping as `globalMiddlewareStep` dictates. -/
def seqRun : List GlobalMiddleware → GMRun
  | [] => ⟨[], false, 0, 0⟩
  | m :: ms => globalMiddlewareStep m (seqRun ms)

/-- `callGlobalMiddlewares`: the loop over the three per-category cursor
lists (`interface{}` , `*Base`, typed).  Selection of the next middleware
is exactly as in `mergeOrder`; each selected middleware is then run with
the loop body's recover/`handleResult` semantics
(`globalMiddlewareStep`). -/
def callGlobalMiddlewares : (il bl tl : List GlobalMiddleware) → GMRun
  | [], [], [] => ⟨[], false, 0, 0⟩
  | i :: il, [], [] => globalMiddlewareStep i (callGlobalMiddlewares il [] [])
  | [], b :: bl, [] => globalMiddlewareStep b (callGlobalMiddlewares [] bl [])
  | [], [], t :: tl => globalMiddlewareStep t (callGlobalMiddlewares [] [] tl)
  | i :: il, b :: bl, [] =>
    if b.serial < i.serial then
      globalMiddlewareStep b (callGlobalMiddlewares (i :: il) bl [])
    else globalMiddlewareStep i (callGlobalMiddlewares il (b :: bl) [])
  | i :: il, [], t :: tl =>
    if t.serial < i.serial then
      globalMiddlewareStep t (callGlobalMiddlewares (i :: il) [] tl)
    else globalMiddlewareStep i (callGlobalMiddlewares il [] (t :: tl))
  | [], b :: bl, t :: tl =>
    if t.serial < b.serial then
      globalMiddlewareStep t (callGlobalMiddlewares [] (b :: bl) tl)
    else globalMiddlewareStep b (callGlobalMiddlewares [] bl (t :: tl))
  | i :: il, b :: bl, t :: tl =>
    if b.serial < i.serial then
      if t.serial < b.serial then
        globalMiddlewareStep t (callGlobalMiddlewares (i :: il) (b :: bl) tl)
      else globalMiddlewareStep b (callGlobalMiddlewares (i :: il) bl (t :: tl))
    else
      if t.serial < i.serial then
        globalMiddlewareStep t (callGlobalMiddlewares (i :: il) (b :: bl) tl)
      else globalMiddlewareStep i (callGlobalMiddlewares il (b :: bl) (t :: tl))
termination_by il bl tl => il.length + bl.length + tl.length

/-! ## The registration side of the global middleware table

`AddGlobalMiddleware` (after validating the function) appends
`{middleware, serial: currentSerial}` to `globalMiddlewares[et]` — `et`
being the middleware's second parameter type — and increments
`currentSerial`, all under the write lock.  `gmForFrom s regs t` is the
list stored under key `t` after registering the sequence `regs` starting
from serial `s`; `buildGMs` below is the same computation as a fold over
the association-list form of the map. -/

/-- Contents of `globalMiddlewares[t]` after registering `regs`
(second-parameter type and call behaviour of each middleware, in
registration order), with serials counted from `s`. -/
def gmForFrom (s : Nat) (regs : List (Ty × MwRet)) (t : Ty) :
    List GlobalMiddleware :=
  match regs with
  | [] => []
  | (u, r) :: rest =>
    if u = t then ⟨s, r⟩ :: gmForFrom (s + 1) rest t
    else gmForFrom (s + 1) rest t

/-- The middlewares applicable to an event of category `c`: those
registered for `interface{}`, for `*Base`, or for the event's own pointer
type, in registration order, with serials counted from `s`. -/
def gmApplicableFrom (s : Nat) (regs : List (Ty × MwRet)) (c : EvType) :
    List GlobalMiddleware :=
  match regs with
  | [] => []
  | (u, r) :: rest =>
    if u = Ty.iface ∨ u = Ty.base ∨ u = Ty.ev c then
      ⟨s, r⟩ :: gmApplicableFrom (s + 1) rest c
    else gmApplicableFrom (s + 1) rest c

/-- `gmForFrom` starting at serial 0 (the handler's initial
`currentSerial`). -/
def gmFor (regs : List (Ty × MwRet)) (t : Ty) : List GlobalMiddleware :=
  gmForFrom 0 regs t

/-- `gmApplicableFrom` starting at serial 0. -/
def gmApplicable (regs : List (Ty × MwRet)) (c : EvType) :
    List GlobalMiddleware :=
  gmApplicableFrom 0 regs c

/-! ## Go maps as association lists

`map[reflect.Type][]T` is modelled as an association list with unique
keys; lookup of a missing key yields the nil slice, and appending to a
missing key inserts it. -/

/-- Map lookup: `m[k]`, with the zero value (nil slice) for a missing
key. -/
def tblGet {α : Type} : List (Ty × List α) → Ty → List α
  | [], _ => []
  | p :: rest, k => if p.1 = k then p.2 else tblGet rest k

/-- `m[k] = append(m[k], x)`. -/
def tblAppend {α : Type} : List (Ty × List α) → Ty → α → List (Ty × List α)
  | [], k, x => [(k, [x])]
  | p :: rest, k, x =>
    if p.1 = k then (p.1, p.2 ++ [x]) :: rest else p :: tblAppend rest k x

/-- The `globalMiddlewares` map and `currentSerial` after the
registration sequence `regs`, as computed by `AddGlobalMiddleware`'s
append-and-increment. -/
def buildGMs (regs : List (Ty × MwRet)) :
    List (Ty × List GlobalMiddleware) × Nat :=
  regs.foldl
    (fun acc p => (tblAppend acc.1 p.1 ⟨acc.2, p.2⟩, acc.2 + 1)) ([], 0)

/-! ## Registration-time validation (`addHandler`, `extractMiddlewares`,
`AddGlobalMiddleware`)

The reflective checks on a candidate function's signature are embedded
over `GoFunc`, a function type's parameter and result lists.  Indexing a
result out of range (`Type.Out(i)` with `i ≥ NumOut()`) panics inside
`reflect`; the check functions report that as a distinguished outcome. -/

/-- A Go function type, as far as the validation code inspects it:
`NumIn()/In(i)` and `NumOut()/Out(i)`. -/
structure GoFunc where
  ins : List Ty
  outs : List Ty
deriving DecidableEq, Repr

/-- `errorType = reflect.TypeOf((error)(nil))`: the argument interface
value is nil, so `reflect.TypeOf` returns the nil `reflect.Type`.  A
`reflect.Type` that may be nil is `Option Ty`; this one is `none`. -/
def errorType : Option Ty := none

/-- Outcome of validating a candidate handler function. -/
inductive CheckRes
  | accepted (eventType : Ty)
  | rejected
  | goPanic
deriving DecidableEq, Repr

/-- The func branch of `addHandler`'s validation: two parameters with
`*State` first; then
`(NumOut() == 1 && Out(1) != errorType) || NumOut() != 0` — when
`NumOut() == 1` the short-circuit evaluates `Out(1)`, which is out of
range and panics in `reflect` before any comparison happens. -/
def checkHandlerFunc (f : GoFunc) : CheckRes :=
  if f.ins.length ≠ 2 ∨ f.ins.get? 0 ≠ some Ty.state then .rejected
  else if f.outs.length = 1 then .goPanic
  else if f.outs.length ≠ 0 then .rejected
  else
    match f.ins.get? 1 with
    | some t => .accepted t
    | none => .rejected

/-- `extractMiddlewares`' validation of one per-handler middleware: the
same (panicking) shape check as `checkHandlerFunc`, then the second
parameter must be `interface{}`, `*Base`, or the handler's event type. -/
def checkMiddlewareFunc (f : GoFunc) (eventType : Ty) : CheckRes :=
  match checkHandlerFunc f with
  | .accepted met =>
    if met = Ty.iface ∨ met = Ty.base ∨ met = eventType then .accepted met
    else .rejected
  | r => r

/-- `AddGlobalMiddleware`'s validation: two parameters with `*State`
first, and `(NumOut() == 1 && Out(0) == errorType) || NumOut() == 0`.
`Out(0)` is in range here, but it is compared against the nil
`errorType`, so a middleware returning `error` is rejected.  Returns the
key type `et = ft.In(1)` when accepted. -/
def checkGlobalMiddlewareFunc (f : GoFunc) : Option Ty :=
  if f.ins.length ≠ 2 ∨ f.ins.get? 0 ≠ some Ty.state then none
  else if ¬ ((f.outs.length = 1 ∧ f.outs.get? 0 = errorType) ∨
      f.outs.length = 0) then none
  else f.ins.get? 1

/-- The dynamic value passed to `AddHandler`: a function, a channel, or
anything else. -/
inductive GoVal
  | fnVal (f : GoFunc)
  | chanVal (elem : Ty)
  | otherVal
deriving DecidableEq, Repr

/-- Classification of an `addHandler` argument: for a channel the event
type is the element type (no further validation); for a function the
validated second parameter; anything else is rejected.  `handlerType` is
the value's own reflect type — the key the removal closure later scans. -/
inductive AddRes
  | ok (eventType handlerType : Ty) (channel : Bool)
  | rejected
  | goPanic
deriving DecidableEq, Repr

/-- `addHandler`'s classification of its `handler` argument. -/
def addHandlerClassify : GoVal → AddRes
  | .chanVal elem => .ok elem (.chanOf elem) true
  | .fnVal f =>
    match checkHandlerFunc f with
    | .accepted t => .ok t (.fn t) false
    | .rejected => .rejected
    | .goPanic => .goPanic
  | .otherVal => .rejected

/-! ## Handlers and their per-dispatch execution -/

/-- Outcome of calling a handler body: returns `nil` (or nothing),
returns a non-nil error (routed to the ErrorHandler), or panics. -/
inductive HRet
  | ok
  | err
  | panics
deriving DecidableEq, Repr

/-- A `genericHandler`: the registered value's behaviour plus the
bookkeeping the dispatcher attaches.  Pointer identity is modelled by
`id`; `fnTy` is the registered value's own reflect type (the key the
removal closure scans); `once`/`onceUsed` model the `sync.Once` of a
one-shot handler; `mwRets` are the call outcomes of its middleware
chain in order. -/
structure GenericHandler where
  id : Nat
  fnTy : Ty
  channel : Bool
  once : Bool
  onceUsed : Bool
  mwRets : List MwRet
  ret : HRet
deriving DecidableEq, Repr

/-- The `handlers` map. -/
abbrev HandlerTable := List (Ty × List GenericHandler)

/-- Remove the first handler with the given identity from a list
(`if ha == gh` followed by slice splice and `break`). -/
def removeFirstId : List GenericHandler → Nat → List GenericHandler
  | [], _ => []
  | gh :: rest, i => if gh.id = i then rest else gh :: removeFirstId rest i

/-- The removal closure returned by `addHandler`: it scans
`h.handlers[handlerType]` — the list under the registered value's OWN
type, not under the event type the handler was actually appended to —
for the identical handler and splices it out. -/
def rmHandler (tbl : HandlerTable) (handlerType : Ty) (ghId : Nat) :
    HandlerTable :=
  tbl.map (fun p =>
    if p.1 = handlerType then (p.1, removeFirstId p.2 ghId) else p)

/-- Outcome of a handler's own middleware chain inside the handler
goroutine: all middlewares returned nil (`pass`); some middleware
returned `Filtered` or another non-nil error, making `callMiddlewares`
return true (`stop`); or some middleware panicked, unwinding to the
goroutine's recover (`panicked`). -/
inductive ChainOut
  | pass
  | stop
  | panicked
deriving DecidableEq, Repr

/-- `callMiddlewares` over the chain's call outcomes.  (A non-nil,
non-`Filtered` error additionally reports to the ErrorHandler before
stopping; no claim depends on that report.) -/
def runChain : List MwRet → ChainOut
  | [] => .pass
  | .ok :: ms => runChain ms
  | .filtered :: _ => .stop
  | .err :: _ => .stop
  | .panics :: _ => .panicked

/-- What one handler goroutine did by the time it finished. -/
structure HandlerExec where
  bodyRan : Bool
  rmCalled : Bool
  wgDone : Bool
  panicReported : Bool
deriving DecidableEq, Repr

/-- One handler goroutine of `callHandlers`, given its middleware-chain
outcome: a chain panic is recovered (PanicHandler) with `wg.Done` never
reached; a chain stop returns early, also skipping `wg.Done`; otherwise
the body runs (under `once.Do` for one-shot handlers, which marks the
`Once` consumed even if the body panics), the one-shot handler then
calls its removal closure, and `wg.Done` is reached unless the body
panicked.  Returns the exec record and the new `onceUsed` state. -/
def execHandler (co : ChainOut) (once onceUsed : Bool) (ret : HRet) :
    HandlerExec × Bool :=
  match co with
  | .panicked => (⟨false, false, false, true⟩, onceUsed)
  | .stop => (⟨false, false, false, false⟩, onceUsed)
  | .pass =>
    if once then
      if onceUsed then (⟨false, false, true, false⟩, true)
      else
        match ret with
        | .panics => (⟨true, false, false, true⟩, true)
        | _ => (⟨true, true, true, false⟩, true)
    else
      match ret with
      | .panics => (⟨true, false, false, true⟩, onceUsed)
      | _ => (⟨true, false, true, false⟩, onceUsed)

/-- Repeated dispatches to one handler: thread the `sync.Once` state
through a sequence of per-dispatch middleware-chain outcomes. -/
def execSeq (once used : Bool) (ret : HRet) :
    List ChainOut → List HandlerExec
  | [] => []
  | co :: rest =>
    let r := execHandler co once used ret
    r.1 :: execSeq once r.2 ret rest

/-- Marks, in a sequence of chain outcomes, the single dispatch whose
handler body runs: the first `pass`, after which no body runs again. -/
def markFirstPass : List ChainOut → List Bool
  | [] => []
  | .pass :: rest => true :: rest.map (fun _ => false)
  | _ :: rest => false :: markFirstPass rest

/-! ## The guild lifecycle tracker and the engine state -/

/-- A guild snowflake id. -/
abbrev GuildID := Nat

/-- Modelled from the spec: `internal/moreatomic.GuildIDSet` is not under
`src/`; per the spec it is one of "two sets of guild identifiers"
guarded by a mutex, so `Add` inserts an id and `Delete` removes it,
reporting whether it was present. -/
def setAdd (s : List GuildID) (g : GuildID) : List GuildID :=
  if g ∈ s then s else s ++ [g]

/-- Modelled from the spec: `GuildIDSet.Delete` — remove `g`, returning
whether it was a member. -/
def setDelete (s : List GuildID) (g : GuildID) : Bool × List GuildID :=
  (decide (g ∈ s), s.erase g)

/-- The dispatcher-relevant state of `State`/`EventHandler`: the two
registration maps, the serial and (modelled) identity counters, and the
tracker's two guild sets. -/
structure Engine where
  handlers : HandlerTable
  gms : List (Ty × List GlobalMiddleware)
  currentSerial : Nat
  nextId : Nat
  unreadyGuilds : List GuildID
  unavailableGuilds : List GuildID
deriving DecidableEq, Repr

/-- A freshly constructed handler: empty maps, zero counters, empty
guild sets. -/
def engine0 : Engine := ⟨[], [], 0, 0, [], []⟩

/-- `handleReady`: every guild in the Ready snapshot is added to
`unreadyGuilds` (the entry's unavailable flag is not consulted). -/
def handleReady (en : Engine) (guilds : List (GuildID × Bool)) : Engine :=
  { en with
    unreadyGuilds := guilds.foldl (fun s p => setAdd s p.1) en.unreadyGuilds }

/-- `handleGuildCreate`: if the guild was marked unavailable it has come
back online (`GuildAvailableEvent`); else if it was announced in Ready it
has now become available (`GuildReadyEvent`); else it was just joined
(`GuildJoinEvent`).  The switch evaluates the set deletions in that
order, so the second set is not touched when the first case fires. -/
def handleGuildCreate (en : Engine) (g : GuildID) : Engine × EvType :=
  let del1 := setDelete en.unavailableGuilds g
  if del1.1 then
    ({ en with unavailableGuilds := del1.2 }, .guildAvailable)
  else
    let del2 := setDelete en.unreadyGuilds g
    if del2.1 then ({ en with unreadyGuilds := del2.2 }, .guildReady)
    else (en, .guildJoin)

/-- `handleGuildDelete`: an unavailable delete marks the guild
unavailable (`GuildUnavailableEvent`); otherwise the guild was left
(`GuildLeaveEvent`) and any unavailable mark is dropped —
`unreadyGuilds` is not touched on either path. -/
def handleGuildDelete (en : Engine) (g : GuildID) (unavailable : Bool) :
    Engine × EvType :=
  if unavailable then
    ({ en with unavailableGuilds := setAdd en.unavailableGuilds g },
      .guildUnavailable)
  else
    ({ en with unavailableGuilds := (setDelete en.unavailableGuilds g).2 },
      .guildLeave)

/-! ## Dispatch (`Call`, `call`, `callHandlers`) -/

/-- A raw event passed to `Call` (its `Base` payload and context are
irrelevant to the routed behaviour). -/
inductive Event
  | ready (guilds : List (GuildID × Bool))
  | guildCreate (g : GuildID)
  | guildDelete (g : GuildID) (unavailable : Bool)
  | plain (t : EvType)
deriving DecidableEq, Repr

/-- The event's dispatch category. -/
def Event.cat : Event → EvType
  | .ready _ => .ready
  | .guildCreate _ => .guildCreate
  | .guildDelete _ _ => .guildDelete
  | .plain t => t

/-- `reflect.TypeOf(e)`: the event's pointer type, the key used for the
typed middleware and handler lists. -/
def Event.ty (e : Event) : Ty := .ev e.cat

/-- `call`: the handlers launched for one event of type `t` — the
`interface{}` and `*Base` lists are included exactly when the dispatch
is NOT direct, followed by the typed list. -/
def call (tbl : HandlerTable) (t : Ty) (direct : Bool) :
    List GenericHandler :=
  (if direct then [] else tblGet tbl .iface ++ tblGet tbl .base) ++
    tblGet tbl t

/-- Everything one `Call` does: the updated engine (tracker bookkeeping),
the global-middleware run, the synthesized situational event (for raw
guild create/delete), and the handlers launched for the situational and
the raw dispatch. -/
structure CallResult where
  engine : Engine
  gmRun : GMRun
  sitEvent : Option EvType
  sitLaunched : List GenericHandler
  rawLaunched : List GenericHandler
deriving DecidableEq, Repr

/-- `Call`: run the global middlewares (serial-merged across the
`interface{}`, `*Base` and typed lists); do the guild-lifecycle
bookkeeping unconditionally; when not aborted, dispatch the synthesized
situational event NON-directly and then the raw event — directly (i.e.
skipping `interface{}`/`*Base` handlers) exactly when the raw event was
a guild create/delete. -/
def Call (en : Engine) (e : Event) : CallResult :=
  let run := callGlobalMiddlewares (tblGet en.gms .iface)
    (tblGet en.gms .base) (tblGet en.gms e.ty)
  match e with
  | .ready gs =>
    let en' := handleReady en gs
    { engine := en', gmRun := run, sitEvent := none, sitLaunched := [],
      rawLaunched :=
        if run.abort then [] else call en'.handlers e.ty false }
  | .guildCreate g =>
    let r := handleGuildCreate en g
    { engine := r.1, gmRun := run, sitEvent := some r.2,
      sitLaunched :=
        if run.abort then [] else call r.1.handlers (.ev r.2) false,
      rawLaunched :=
        if run.abort then [] else call r.1.handlers e.ty true }
  | .guildDelete g u =>
    let r := handleGuildDelete en g u
    { engine := r.1, gmRun := run, sitEvent := some r.2,
      sitLaunched :=
        if run.abort then [] else call r.1.handlers (.ev r.2) false,
      rawLaunched :=
        if run.abort then [] else call r.1.handlers e.ty true }
  | .plain _ =>
    { engine := en, gmRun := run, sitEvent := none, sitLaunched := [],
      rawLaunched := if run.abort then [] else call en.handlers e.ty false }

/-- Run a sequence of raw events through `Call`, collecting the
synthesized situational events in order. -/
def runCalls (en : Engine) : List Event → Engine × List EvType
  | [] => (en, [])
  | e :: es =>
    let r := Call en e
    let rest := runCalls r.engine es
    (rest.1, r.sitEvent.toList ++ rest.2)

/-- The two tracker sets share no guild id. -/
abbrev disjointGuildSets (en : Engine) : Prop :=
  ∀ g ∈ en.unreadyGuilds, g ∉ en.unavailableGuilds

/-- Constraint on one event relative to the current tracker state: a
Ready snapshot lists no guild currently marked unavailable, and an
unavailable GuildDelete targets no guild currently pending sync. -/
def stepOK (en : Engine) : Event → Bool
  | .ready gs => gs.all (fun p => decide (p.1 ∉ en.unavailableGuilds))
  | .guildDelete g true => decide (g ∉ en.unreadyGuilds)
  | _ => true

/-- `stepOK` holds at every step of the run. -/
def goodRun (en : Engine) : List Event → Bool
  | [] => true
  | e :: es => stepOK en e && goodRun (Call en e).engine es

/-! ## Registration operations on the engine -/

/-- `addHandler` on the engine: classify the value, then append the new
`genericHandler` under the EVENT type while the returned removal token
captures the value's own type (`handlerType`) and the handler's
identity.  `mwRets`/`ret` abstract the already-extracted middleware
chain and the body.  Returns the token when registration succeeded. -/
def addHandlerE (en : Engine) (v : GoVal) (once : Bool)
    (mwRets : List MwRet) (ret : HRet) : Engine × Option (Ty × Nat) :=
  match addHandlerClassify v with
  | .ok et ht chan =>
    let gh : GenericHandler := ⟨en.nextId, ht, chan, once, false, mwRets, ret⟩
    ({ en with
        handlers := tblAppend en.handlers et gh
        nextId := en.nextId + 1 },
      some (ht, en.nextId))
  | _ => (en, none)

/-- Invoking a removal token: `rmHandler` on the token's captured
handler type and identity. -/
def rmE (en : Engine) (tok : Ty × Nat) : Engine :=
  { en with handlers := rmHandler en.handlers tok.1 tok.2 }

/-- `AddGlobalMiddleware` on the engine: validate, then append with the
current serial under the middleware's second parameter type and
increment the serial. -/
def addGlobalMiddlewareE (en : Engine) (f : GoFunc) (ret : MwRet) :
    Engine :=
  match checkGlobalMiddlewareFunc f with
  | some et =>
    { en with
      gms := tblAppend en.gms et ⟨en.currentSerial, ret⟩
      currentSerial := en.currentSerial + 1 }
  | none => en

/-- One registration-API operation: add a handler (optionally one-shot),
add a global middleware, or invoke the removal token returned by the
`i`-th successful `AddHandler`. -/
inductive RegOp
  | addH (v : GoVal) (once : Bool) (mwRets : List MwRet) (ret : HRet)
  | addGM (f : GoFunc) (ret : MwRet)
  | rmTok (i : Nat)
deriving DecidableEq, Repr

/-- Apply a sequence of registration operations, tracking the removal
tokens handed out so far. -/
def applyOps : Engine × List (Ty × Nat) → List RegOp →
    Engine × List (Ty × Nat)
  | s, [] => s
  | (en, toks), .addH v o m r :: ops =>
    let res := addHandlerE en v o m r
    applyOps (res.1, toks ++ res.2.toList) ops
  | (en, toks), .addGM f r :: ops =>
    applyOps (addGlobalMiddlewareE en f r, toks) ops
  | (en, toks), .rmTok i :: ops =>
    match toks.get? i with
    | some tok => applyOps (rmE en tok, toks) ops
    | none => applyOps (en, toks) ops

/-! ## Intents derivation -/

/-- The `gateway.Intents` bit constants (values from the gateway
dependency). -/
def IntentGuilds : Nat := 1
def IntentGuildMembers : Nat := 2
def IntentGuildBans : Nat := 4
def IntentGuildEmojis : Nat := 8
def IntentGuildIntegrations : Nat := 16
def IntentGuildWebhooks : Nat := 32
def IntentGuildInvites : Nat := 64
def IntentGuildVoiceStates : Nat := 128
def IntentGuildPresences : Nat := 256
def IntentGuildMessages : Nat := 512
def IntentGuildMessageReactions : Nat := 1024
def IntentGuildMessageTyping : Nat := 2048
def IntentDirectMessages : Nat := 4096
def IntentDirectMessageReactions : Nat := 8192
def IntentDirectMessageTyping : Nat := 16384

/-- The static `eventIntents` map (`intents.go`); a key not in the map —
including `interface{}` and `*Base` — yields the zero intents value. -/
def eventIntents : Ty → Nat
  | .ev .guildCreate => IntentGuilds
  | .ev .guildReady => IntentGuilds
  | .ev .guildAvailable => IntentGuilds
  | .ev .guildJoin => IntentGuilds
  | .ev .guildUpdate => IntentGuilds
  | .ev .guildDelete => IntentGuilds
  | .ev .guildUnavailable => IntentGuilds
  | .ev .guildLeave => IntentGuilds
  | .ev .guildRoleCreate => IntentGuilds
  | .ev .guildRoleUpdate => IntentGuilds
  | .ev .guildRoleDelete => IntentGuilds
  | .ev .channelCreate => IntentGuilds
  | .ev .channelUpdate => IntentGuilds
  | .ev .channelDelete => IntentGuilds
  | .ev .channelPinsUpdate => IntentGuilds ||| IntentDirectMessages
  | .ev .guildMemberAdd => IntentGuildMembers
  | .ev .guildMemberRemove => IntentGuildMembers
  | .ev .guildMemberUpdate => IntentGuildMembers
  | .ev .guildBanAdd => IntentGuildBans
  | .ev .guildBanRemove => IntentGuildBans
  | .ev .guildEmojisUpdate => IntentGuildEmojis
  | .ev .guildIntegrationsUpdate => IntentGuildIntegrations
  | .ev .webhooksUpdate => IntentGuildWebhooks
  | .ev .inviteCreate => IntentGuildInvites
  | .ev .inviteDelete => IntentGuildInvites
  | .ev .voiceStateUpdate => IntentGuildVoiceStates
  | .ev .presenceUpdate => IntentGuildPresences
  | .ev .messageCreate => IntentGuildMessages ||| IntentDirectMessages
  | .ev .messageUpdate => IntentGuildMessages ||| IntentDirectMessages
  | .ev .messageDelete => IntentGuildMessages ||| IntentDirectMessages
  | .ev .messageDeleteBulk => IntentGuildMessages
  | .ev .messageReactionAdd =>
    IntentGuildMessageReactions ||| IntentDirectMessageReactions
  | .ev .messageReactionRemove =>
    IntentGuildMessageReactions ||| IntentDirectMessageReactions
  | .ev .messageReactionRemoveAll =>
    IntentGuildMessageReactions ||| IntentDirectMessageReactions
  | .ev .messageReactionRemoveEmoji =>
    IntentGuildMessageReactions ||| IntentDirectMessageReactions
  | .ev .typingStart =>
    IntentGuildMessageTyping ||| IntentDirectMessageTyping
  | _ => 0

/-- `DeriveIntents`: OR together `eventIntents[t]` over every key of the
global-middleware map, then over every key of the handler map. -/
def DeriveIntents (en : Engine) : Nat :=
  en.handlers.foldl (fun i p => i ||| eventIntents p.1)
    (en.gms.foldl (fun i p => i ||| eventIntents p.1) 0)

/-- The spec's description of the derivation ("union, over every
registered category with at least one handler or global middleware, of a
static per-category capability bitmask; `any` and `context-only` are
excluded"), stated independently of the code's key iteration. -/
def liveIntents (en : Engine) : Nat :=
  (((en.gms.filter (fun p => !p.2.isEmpty)).map Prod.fst ++
      (en.handlers.filter (fun p => !p.2.isEmpty)).map Prod.fst).filter
    (fun k => !(k = Ty.iface ∨ k = Ty.base : Bool))).foldl
    (fun i k => i ||| eventIntents k) 0

/-! ## Aftermath of a dispatch: once-state write-back, removal attempts,
and WaitGroup accounting -/

/-- Write a handler's new `sync.Once` state back into the table (the
table holds pointers; the goroutine mutates the pointed-to handler). -/
def setOnceUsed (tbl : HandlerTable) (ghId : Nat) (v : Bool) :
    HandlerTable :=
  tbl.map (fun p =>
    (p.1, p.2.map (fun gh =>
      if gh.id = ghId then { gh with onceUsed := v } else gh)))

/-- The handler table once every goroutine launched by a dispatch has
finished: each records its `Once` consumption and, when it called its
removal closure, the (key-mismatched) removal attempt. -/
def applyHandlerExecs (tbl : HandlerTable) :
    List GenericHandler → HandlerTable
  | [] => tbl
  | gh :: rest =>
    let r := execHandler (runChain gh.mwRets) gh.once gh.onceUsed gh.ret
    let tbl1 := setOnceUsed tbl gh.id r.2
    let tbl2 := if r.1.rmCalled then rmHandler tbl1 gh.fnTy gh.id else tbl1
    applyHandlerExecs tbl2 rest

/-- Whether one launched handler goroutine reaches its `wg.Done()`. -/
def handlerGoroutineDone (gh : GenericHandler) : Bool :=
  (execHandler (runChain gh.mwRets) gh.once gh.onceUsed gh.ret).1.wgDone

/-- Net WaitGroup count left by one `callHandlers` call after every
launched goroutine has run to completion: `wg.Add(len(handlers))` minus
the `wg.Done()` calls actually reached. -/
def wgResidual (launched : List GenericHandler) : Nat :=
  launched.length - (launched.filter handlerGoroutineDone).length

/-- `Close` (after closing the loop) returns from `wg.Wait()` exactly
when the counter is back to zero. -/
def closeReturns (residual : Nat) : Bool := residual = 0

/-! ## Well-formedness of reachable engine states -/

/-- A removal token is safe for a table when no handler stored under the
token's captured type carries the token's identity (true of every table
the code can build, because a handler is stored under its event type
while the token captures the handler value's own type). -/
def tokSafe (tbl : HandlerTable) (tok : Ty × Nat) : Prop :=
  ∀ p ∈ tbl, p.1 = tok.1 → ∀ gh ∈ p.2, gh.id ≠ tok.2

/-- Invariants of every engine state reachable through the registration
API: no map entry holds an empty list, every outstanding removal token
is safe and its identity already allocated, and every stored handler
identity is already allocated. -/
def EngineWF (en : Engine) (toks : List (Ty × Nat)) : Prop :=
  (∀ p ∈ en.handlers, p.2 ≠ []) ∧
    (∀ p ∈ en.gms, p.2 ≠ []) ∧
    (∀ tok ∈ toks, tokSafe en.handlers tok ∧ tok.2 < en.nextId) ∧
    (∀ p ∈ en.handlers, ∀ gh ∈ p.2, gh.id < en.nextId)

/-! ## Concrete scenario constants used by the witnesses and
counterexamples -/

/-- Three global middlewares registered in spec order: one for
`interface{}` (serial 0), one typed for `*MessageCreateEvent` (serial
1), one for `*Base` (serial 2). -/
def regsW : List (Ty × MwRet) :=
  [(.iface, .ok), (.ev .messageCreate, .ok), (.base, .ok)]

/-- A registration sequence whose second middleware (typed, serial 1)
filters. -/
def regsF : List (Ty × MwRet) :=
  [(.base, .ok), (.ev .messageCreate, .filtered), (.iface, .ok)]

/-- An engine carrying the global middlewares of `regsF`. -/
def enF : Engine := { engine0 with gms := (buildGMs regsF).1 }

/-- A non-once handler registered for `interface{}` ("any"). -/
def ghAny : GenericHandler :=
  ⟨0, .fn .iface, false, false, false, [], .ok⟩

/-- An engine whose only handler is the "any" handler `ghAny`. -/
def enAny : Engine := { engine0 with handlers := [(Ty.iface, [ghAny])] }

/-- A one-shot handler for `*MessageCreateEvent` whose middleware chain
passes. -/
def ghOnce : GenericHandler :=
  ⟨7, .fn (.ev .messageCreate), false, true, false, [], .ok⟩

/-- An engine whose only handler is the one-shot handler `ghOnce`. -/
def enOnce : Engine :=
  { engine0 with handlers := [(Ty.ev .messageCreate, [ghOnce])] }

/-- A handler whose (only) per-handler middleware filters every
event. -/
def ghFiltered : GenericHandler :=
  ⟨1, .fn (.ev .messageCreate), false, false, false, [.filtered], .ok⟩

/-- A handler whose body panics. -/
def ghPanics : GenericHandler :=
  ⟨2, .fn (.ev .messageCreate), false, false, false, [], .panics⟩

/-- A handler that completes normally. -/
def ghNormal : GenericHandler :=
  ⟨3, .fn (.ev .messageCreate), false, false, false, [], .ok⟩

/-- An engine with a filtered, a panicking and a normal handler for
`*MessageCreateEvent`. -/
def enWg : Engine :=
  { engine0 with
    handlers := [(Ty.ev .messageCreate, [ghFiltered, ghPanics, ghNormal])] }

/-- A valid handler function value `func(*State, *MessageCreateEvent)`. -/
def fnMsgCreate : GoVal := .fnVal ⟨[.state, .ev .messageCreate], []⟩

/-- The engine after registering `fnMsgCreate` through `AddHandler`. -/
def enReg : Engine := (addHandlerE engine0 fnMsgCreate false [] .ok).1

/-- An engine whose tracker has guild 3 pending sync. -/
def enPend : Engine := { engine0 with unreadyGuilds := [3] }

/-- A well-behaved guild event history: Ready announces guild 7, guild 7
becomes ready, guild 3 is left. -/
def evsGood : List Event :=
  [.ready [(7, true)], .guildCreate 7, .guildDelete 3 false]

/-! # Theorems -/

/-! ## Basic facts about the reflect-type model -/

/-- A function type is never equal to its own second-parameter type (a
Go type cannot contain itself). -/
theorem Ty.fn_ne (a : Ty) : Ty.fn a ≠ a := by
  induction a with
  | fn arg ih => intro h; exact ih (Ty.fn.injEq .. ▸ h)
  | _ => intro h; cases h

/-- A channel type is never equal to its own element type. -/
theorem Ty.chanOf_ne (a : Ty) : Ty.chanOf a ≠ a := by
  induction a with
  | chanOf elem ih => intro h; exact ih (Ty.chanOf.injEq .. ▸ h)
  | _ => intro h; cases h

/-! ## The middleware merge -/

/-- The loop factors through its selection order: running
`callGlobalMiddlewares` equals sequentially running the serial-merged
sequence. -/
theorem callGlobalMiddlewares_eq_seqRun (il bl tl : List GlobalMiddleware) :
    callGlobalMiddlewares il bl tl = seqRun (mergeOrder il bl tl) := by
  induction il, bl, tl using callGlobalMiddlewares.induct <;>
    (simp only [callGlobalMiddlewares, mergeOrder]
     (try split_ifs) <;> simp_all [seqRun])

/-- A front `interface{}` middleware strictly below both other fronts is
selected first. -/
theorem mergeOrder_cons_i (m : GlobalMiddleware) (il bl tl : List GlobalMiddleware)
    (hb : ∀ x ∈ bl, m.serial < x.serial) (ht : ∀ x ∈ tl, m.serial < x.serial) :
    mergeOrder (m :: il) bl tl = m :: mergeOrder il bl tl := by
  match bl, tl with
  | [], [] => simp [mergeOrder]
  | b :: bl, [] =>
    have h1 : ¬b.serial < m.serial :=
      Nat.lt_asymm (hb b (List.mem_cons_self b bl))
    simp [mergeOrder, h1]
  | [], t :: tl =>
    have h1 : ¬t.serial < m.serial :=
      Nat.lt_asymm (ht t (List.mem_cons_self t tl))
    simp [mergeOrder, h1]
  | b :: bl, t :: tl =>
    have h1 : ¬b.serial < m.serial :=
      Nat.lt_asymm (hb b (List.mem_cons_self b bl))
    have h2 : ¬t.serial < m.serial :=
      Nat.lt_asymm (ht t (List.mem_cons_self t tl))
    simp [mergeOrder, h1, h2]

/-- A front `*Base` middleware strictly below both other fronts is
selected first. -/
theorem mergeOrder_cons_b (m : GlobalMiddleware) (il bl tl : List GlobalMiddleware)
    (hi : ∀ x ∈ il, m.serial < x.serial) (ht : ∀ x ∈ tl, m.serial < x.serial) :
    mergeOrder il (m :: bl) tl = m :: mergeOrder il bl tl := by
  match il, tl with
  | [], [] => simp [mergeOrder]
  | i :: il, [] =>
    have h1 : m.serial < i.serial := hi i (List.mem_cons_self i il)
    simp [mergeOrder, h1]
  | [], t :: tl =>
    have h1 : ¬t.serial < m.serial :=
      Nat.lt_asymm (ht t (List.mem_cons_self t tl))
    simp [mergeOrder, h1]
  | i :: il, t :: tl =>
    have h1 : m.serial < i.serial := hi i (List.mem_cons_self i il)
    have h2 : ¬t.serial < m.serial :=
      Nat.lt_asymm (ht t (List.mem_cons_self t tl))
    simp [mergeOrder, h1, h2]

/-- A front typed middleware strictly below both other fronts is
selected first. -/
theorem mergeOrder_cons_t (m : GlobalMiddleware) (il bl tl : List GlobalMiddleware)
    (hi : ∀ x ∈ il, m.serial < x.serial) (hb : ∀ x ∈ bl, m.serial < x.serial) :
    mergeOrder il bl (m :: tl) = m :: mergeOrder il bl tl := by
  match il, bl with
  | [], [] => simp [mergeOrder]
  | i :: il, [] =>
    have h1 : m.serial < i.serial := hi i (List.mem_cons_self i il)
    simp [mergeOrder, h1]
  | [], b :: bl =>
    have h1 : m.serial < b.serial := hb b (List.mem_cons_self b bl)
    simp [mergeOrder, h1]
  | i :: il, b :: bl =>
    have h1 : m.serial < i.serial := hi i (List.mem_cons_self i il)
    have h2 : m.serial < b.serial := hb b (List.mem_cons_self b bl)
    by_cases h3 : b.serial < i.serial <;> simp [mergeOrder, h1, h2, h3]

/-- Every serial in `gmForFrom s regs t` is at least `s`. -/
theorem gmForFrom_serial_le (regs : List (Ty × MwRet)) (t : Ty) :
    ∀ s, ∀ x ∈ gmForFrom s regs t, s ≤ x.serial := by
  induction regs with
  | nil => intro s x hx; simp [gmForFrom] at hx
  | cons p rest ih =>
    intro s x hx
    obtain ⟨u, r⟩ := p
    by_cases h : u = t
    · simp [gmForFrom, h] at hx
      rcases hx with rfl | hx
      · exact Nat.le_refl s
      · exact Nat.le_of_lt (Nat.lt_of_lt_of_le (Nat.lt_succ_self s)
          (ih (s + 1) x hx))
    · simp [gmForFrom, h] at hx
      exact Nat.le_of_lt (Nat.lt_of_lt_of_le (Nat.lt_succ_self s)
        (ih (s + 1) x hx))

/-- Every serial in `gmApplicableFrom s regs c` is at least `s`. -/
theorem gmApplicableFrom_serial_le (regs : List (Ty × MwRet)) (c : EvType) :
    ∀ s, ∀ x ∈ gmApplicableFrom s regs c, s ≤ x.serial := by
  induction regs with
  | nil => intro s x hx; simp [gmApplicableFrom] at hx
  | cons p rest ih =>
    intro s x hx
    obtain ⟨u, r⟩ := p
    by_cases h : u = Ty.iface ∨ u = Ty.base ∨ u = Ty.ev c
    · simp only [gmApplicableFrom, if_pos h, List.mem_cons] at hx
      rcases hx with rfl | hx
      · exact Nat.le_refl s
      · exact Nat.le_of_lt (Nat.lt_of_lt_of_le (Nat.lt_succ_self s)
          (ih (s + 1) x hx))
    · simp only [gmApplicableFrom, if_neg h] at hx
      exact Nat.le_of_lt (Nat.lt_of_lt_of_le (Nat.lt_succ_self s)
        (ih (s + 1) x hx))

/-- Merging the three per-category lists produced by a registration
sequence reconstructs the registration (temporal) order of the
applicable middlewares. -/
theorem mergeOrder_gmForFrom (regs : List (Ty × MwRet)) (c : EvType) :
    ∀ s, mergeOrder (gmForFrom s regs .iface) (gmForFrom s regs .base)
      (gmForFrom s regs (.ev c)) = gmApplicableFrom s regs c := by
  induction regs with
  | nil => intro s; simp [gmForFrom, gmApplicableFrom, mergeOrder]
  | cons p rest ih =>
    intro s
    obtain ⟨u, r⟩ := p
    have bndI := gmForFrom_serial_le rest Ty.iface (s + 1)
    have bndB := gmForFrom_serial_le rest Ty.base (s + 1)
    have bndT := gmForFrom_serial_le rest (Ty.ev c) (s + 1)
    by_cases hif : u = Ty.iface
    · subst hif
      have e1 : gmForFrom s ((Ty.iface, r) :: rest) Ty.iface
          = ⟨s, r⟩ :: gmForFrom (s + 1) rest Ty.iface := by simp [gmForFrom]
      have e2 : gmForFrom s ((Ty.iface, r) :: rest) Ty.base
          = gmForFrom (s + 1) rest Ty.base := by simp [gmForFrom]
      have e3 : gmForFrom s ((Ty.iface, r) :: rest) (Ty.ev c)
          = gmForFrom (s + 1) rest (Ty.ev c) := by simp [gmForFrom]
      have e4 : gmApplicableFrom s ((Ty.iface, r) :: rest) c
          = ⟨s, r⟩ :: gmApplicableFrom (s + 1) rest c := by
        simp [gmApplicableFrom]
      rw [e1, e2, e3, e4,
        mergeOrder_cons_i ⟨s, r⟩ _ _ _
          (fun x hx => Nat.lt_of_lt_of_le (Nat.lt_succ_self s) (bndB x hx))
          (fun x hx => Nat.lt_of_lt_of_le (Nat.lt_succ_self s) (bndT x hx)),
        ih (s + 1)]
    · by_cases hb : u = Ty.base
      · subst hb
        have e1 : gmForFrom s ((Ty.base, r) :: rest) Ty.iface
            = gmForFrom (s + 1) rest Ty.iface := by simp [gmForFrom]
        have e2 : gmForFrom s ((Ty.base, r) :: rest) Ty.base
            = ⟨s, r⟩ :: gmForFrom (s + 1) rest Ty.base := by simp [gmForFrom]
        have e3 : gmForFrom s ((Ty.base, r) :: rest) (Ty.ev c)
            = gmForFrom (s + 1) rest (Ty.ev c) := by simp [gmForFrom]
        have e4 : gmApplicableFrom s ((Ty.base, r) :: rest) c
            = ⟨s, r⟩ :: gmApplicableFrom (s + 1) rest c := by
          simp [gmApplicableFrom]
        rw [e1, e2, e3, e4,
          mergeOrder_cons_b ⟨s, r⟩ _ _ _
            (fun x hx => Nat.lt_of_lt_of_le (Nat.lt_succ_self s) (bndI x hx))
            (fun x hx => Nat.lt_of_lt_of_le (Nat.lt_succ_self s) (bndT x hx)),
          ih (s + 1)]
      · by_cases ht : u = Ty.ev c
        · subst ht
          have e1 : gmForFrom s ((Ty.ev c, r) :: rest) Ty.iface
              = gmForFrom (s + 1) rest Ty.iface := by simp [gmForFrom]
          have e2 : gmForFrom s ((Ty.ev c, r) :: rest) Ty.base
              = gmForFrom (s + 1) rest Ty.base := by simp [gmForFrom]
          have e3 : gmForFrom s ((Ty.ev c, r) :: rest) (Ty.ev c)
              = ⟨s, r⟩ :: gmForFrom (s + 1) rest (Ty.ev c) := by
            simp [gmForFrom]
          have e4 : gmApplicableFrom s ((Ty.ev c, r) :: rest) c
              = ⟨s, r⟩ :: gmApplicableFrom (s + 1) rest c := by
            simp [gmApplicableFrom]
          rw [e1, e2, e3, e4,
            mergeOrder_cons_t ⟨s, r⟩ _ _ _
              (fun x hx => Nat.lt_of_lt_of_le (Nat.lt_succ_self s) (bndI x hx))
              (fun x hx => Nat.lt_of_lt_of_le (Nat.lt_succ_self s) (bndB x hx)),
            ih (s + 1)]
        · have e1 : gmForFrom s ((u, r) :: rest) Ty.iface
              = gmForFrom (s + 1) rest Ty.iface := by simp [gmForFrom, hif]
          have e2 : gmForFrom s ((u, r) :: rest) Ty.base
              = gmForFrom (s + 1) rest Ty.base := by simp [gmForFrom, hb]
          have e3 : gmForFrom s ((u, r) :: rest) (Ty.ev c)
              = gmForFrom (s + 1) rest (Ty.ev c) := by simp [gmForFrom, ht]
          have e4 : gmApplicableFrom s ((u, r) :: rest) c
              = gmApplicableFrom (s + 1) rest c := by
            simp [gmApplicableFrom, hif, hb, ht]
          rw [e1, e2, e3, e4, ih (s + 1)]

/-! ## The global middleware table built by `AddGlobalMiddleware` -/

/-- Looking a key up after appending somewhere. -/
theorem tblGet_tblAppend {α : Type} (tbl : List (Ty × List α)) (k q : Ty)
    (x : α) :
    tblGet (tblAppend tbl k x) q =
      if k = q then tblGet tbl q ++ [x] else tblGet tbl q := by
  induction tbl with
  | nil => by_cases h : k = q <;> simp [tblAppend, tblGet, h]
  | cons p rest ih =>
    by_cases h1 : p.1 = k
    · by_cases h2 : k = q
      · subst h2; simp [tblAppend, tblGet, h1]
      · have h3 : ¬p.1 = q := fun hq => h2 (h1 ▸ hq)
        simp [tblAppend, tblGet, h1, h2, h3]
    · by_cases h3 : p.1 = q
      · have h2 : ¬k = q := fun hq => h1 (h3.trans hq.symm)
        have h2s : ¬q = k := fun hq => h2 hq.symm
        simp [tblAppend, tblGet, h1, h2, h2s, h3]
      · simp [tblAppend, tblGet, h1, h3, ih]

/-- The fold inside `buildGMs`, started from any table and serial. -/
theorem buildGMs_loop (regs : List (Ty × MwRet)) :
    ∀ (tbl : List (Ty × List GlobalMiddleware)) (s : Nat) (t : Ty),
      tblGet (regs.foldl
          (fun acc p => (tblAppend acc.1 p.1 ⟨acc.2, p.2⟩, acc.2 + 1))
          (tbl, s)).1 t
        = tblGet tbl t ++ gmForFrom s regs t := by
  induction regs with
  | nil => intro tbl s t; simp [gmForFrom]
  | cons p rest ih =>
    intro tbl s t
    obtain ⟨u, r⟩ := p
    rw [List.foldl_cons, ih, tblGet_tblAppend]
    by_cases h : u = t
    · subst h
      simp [gmForFrom, List.append_assoc]
    · simp [gmForFrom, h]

/-- The list stored under key `t` after registering `regs` through
`AddGlobalMiddleware` is exactly `gmForFrom 0 regs t`. -/
theorem tblGet_buildGMs (regs : List (Ty × MwRet)) (t : Ty) :
    tblGet (buildGMs regs).1 t = gmForFrom 0 regs t := by
  have h := buildGMs_loop regs [] 0 t
  simpa [buildGMs, tblGet] using h

/-! ## Sequential middleware execution -/

/-- When every middleware in the sequence returns nil, all are invoked
in order with no abort and no reports. -/
theorem seqRun_all_ok (l : List GlobalMiddleware)
    (h : ∀ m ∈ l, m.ret = MwRet.ok) : seqRun l = ⟨l, false, 0, 0⟩ := by
  induction l with
  | nil => rfl
  | cons m ms ih =>
    have hm := h m (List.mem_cons_self m ms)
    rw [seqRun, ih (fun x hx => h x (List.mem_cons_of_mem m hx))]
    simp [globalMiddlewareStep, hm]

/-- A `Filtered` return after an all-nil prefix stops the run right
there: the prefix and the filtering middleware are invoked, the run
aborts, and neither callback fires. -/
theorem seqRun_stops_at_filtered (pre : List GlobalMiddleware)
    (m : GlobalMiddleware) (post : List GlobalMiddleware)
    (hpre : ∀ x ∈ pre, x.ret = MwRet.ok) (hm : m.ret = MwRet.filtered) :
    seqRun (pre ++ m :: post) = ⟨pre ++ [m], true, 0, 0⟩ := by
  induction pre with
  | nil => simp [seqRun, globalMiddlewareStep, hm]
  | cons p pre ih =>
    have hp := hpre p (List.mem_cons_self p pre)
    rw [List.cons_append, seqRun,
      ih (fun x hx => hpre x (List.mem_cons_of_mem p hx))]
    simp [globalMiddlewareStep, hp]

/-- The applicable-middleware sequence carries strictly ascending
serials. -/
theorem gmApplicableFrom_sorted (regs : List (Ty × MwRet)) (c : EvType) :
    ∀ s, (gmApplicableFrom s regs c).Pairwise
      (fun a b => a.serial < b.serial) := by
  induction regs with
  | nil => intro s; simp [gmApplicableFrom]
  | cons p rest ih =>
    intro s
    obtain ⟨u, r⟩ := p
    by_cases h : u = Ty.iface ∨ u = Ty.base ∨ u = Ty.ev c
    · simp only [gmApplicableFrom, if_pos h]
      refine List.pairwise_cons.mpr ⟨fun x hx => ?_, ih (s + 1)⟩
      exact Nat.lt_of_lt_of_le (Nat.lt_succ_self s)
        (gmApplicableFrom_serial_le rest c (s + 1) x hx)
    · simp only [gmApplicableFrom, if_neg h]
      exact ih (s + 1)

/-- Middleware behaviours carry over from the registration sequence to
the applicable sequence. -/
theorem gmApplicableFrom_ret_ok (regs : List (Ty × MwRet)) (c : EvType) :
    ∀ s, (∀ p ∈ regs, p.2 = MwRet.ok) →
      ∀ x ∈ gmApplicableFrom s regs c, x.ret = MwRet.ok := by
  induction regs with
  | nil => intro s _ x hx; simp [gmApplicableFrom] at hx
  | cons p rest ih =>
    intro s hok x hx
    obtain ⟨u, r⟩ := p
    have hr : r = MwRet.ok := hok (u, r) (List.mem_cons_self _ _)
    have hok' : ∀ q ∈ rest, q.2 = MwRet.ok :=
      fun q hq => hok q (List.mem_cons_of_mem _ hq)
    by_cases h : u = Ty.iface ∨ u = Ty.base ∨ u = Ty.ev c
    · simp only [gmApplicableFrom, if_pos h, List.mem_cons] at hx
      rcases hx with rfl | hx
      · exact hr
      · exact ih (s + 1) hok' x hx
    · simp only [gmApplicableFrom, if_neg h] at hx
      exact ih (s + 1) hok' x hx

/-! ## `Call` and its middleware run -/

/-- The middleware run `Call` performs, regardless of the event's
constructor. -/
theorem Call_gmRun (en : Engine) (e : Event) :
    (Call en e).gmRun = callGlobalMiddlewares (tblGet en.gms .iface)
      (tblGet en.gms .base) (tblGet en.gms e.ty) := by
  cases e <;> rfl

/-- For an engine whose global middlewares came from the registration
sequence `regs`, `Call`'s middleware run is the sequential run of the
applicable middlewares in registration order. -/
theorem Call_gmRun_from_regs (regs : List (Ty × MwRet)) (en : Engine)
    (e : Event) (hgms : en.gms = (buildGMs regs).1) :
    (Call en e).gmRun = seqRun (gmApplicable regs e.cat) := by
  rw [Call_gmRun, hgms, Event.ty, tblGet_buildGMs, tblGet_buildGMs,
    tblGet_buildGMs, callGlobalMiddlewares_eq_seqRun,
    mergeOrder_gmForFrom regs e.cat 0]
  rfl

/-- An aborting middleware run suppresses both the situational and the
raw fan-out. -/
theorem Call_launched_of_abort (en : Engine) (e : Event)
    (h : (Call en e).gmRun.abort = true) :
    (Call en e).sitLaunched = [] ∧ (Call en e).rawLaunched = [] := by
  cases e <;> simp_all [Call]

/-! ## Claim theorems -/

/-- C1: for every event dispatched through the engine and every sequence
of `AddGlobalMiddleware` registrations (split by the code into the
`interface{}`, `*Base` and typed lists), the middlewares applicable to
the event's category are invoked exactly in the temporal order in which
they were registered — equivalently, in strictly ascending order of
their registration serial — regardless of which of the three physical
lists holds each middleware. -/
theorem global_middlewares_invoked_in_serial_order
    (regs : List (Ty × MwRet)) (en : Engine) (e : Event)
    (hgms : en.gms = (buildGMs regs).1)
    (hok : ∀ p ∈ regs, p.2 = MwRet.ok) :
    (Call en e).gmRun.invoked = gmApplicable regs e.cat ∧
      (gmApplicable regs e.cat).Pairwise (fun a b => a.serial < b.serial) := by
  refine ⟨?_, gmApplicableFrom_sorted regs e.cat 0⟩
  rw [Call_gmRun_from_regs regs en e hgms,
    seqRun_all_ok (gmApplicable regs e.cat)
      (gmApplicableFrom_ret_ok regs e.cat 0 hok)]

/-- C1 witness: the spec's own example — M1 for `interface{}` (serial
0), M2 typed (serial 1), M3 for `*Base` (serial 2) — runs in exactly
that order on a dispatch of the typed category. -/
theorem global_middlewares_invoked_in_serial_order_witness :
    (∀ p ∈ regsW, p.2 = MwRet.ok) ∧
      (Call { engine0 with gms := (buildGMs regsW).1 }
          (.plain .messageCreate)).gmRun.invoked
        = [⟨0, .ok⟩, ⟨1, .ok⟩, ⟨2, .ok⟩] := by
  refine ⟨by decide, ?_⟩
  rw [(global_middlewares_invoked_in_serial_order regsW
    { engine0 with gms := (buildGMs regsW).1 }
    (.plain .messageCreate) rfl (by decide)).1]
  decide

/-- C2: if a global middleware returns the `Filtered` sentinel (after an
all-nil prefix in serial order), the run stops with that middleware — no
later-serial middleware is invoked — the whole dispatch is aborted so no
handler is launched for the event, and neither the ErrorHandler nor the
PanicHandler fires for that return value. -/
theorem filtered_middleware_stops_dispatch
    (regs : List (Ty × MwRet)) (en : Engine) (e : Event)
    (pre : List GlobalMiddleware) (m : GlobalMiddleware)
    (post : List GlobalMiddleware)
    (hgms : en.gms = (buildGMs regs).1)
    (hsplit : gmApplicable regs e.cat = pre ++ m :: post)
    (hpre : ∀ x ∈ pre, x.ret = MwRet.ok)
    (hm : m.ret = MwRet.filtered) :
    (Call en e).gmRun.invoked = pre ++ [m] ∧
      (Call en e).gmRun.abort = true ∧
      (Call en e).gmRun.errorReports = 0 ∧
      (Call en e).gmRun.panicReports = 0 ∧
      (Call en e).sitLaunched = [] ∧
      (Call en e).rawLaunched = [] := by
  have hrun : (Call en e).gmRun = ⟨pre ++ [m], true, 0, 0⟩ := by
    rw [Call_gmRun_from_regs regs en e hgms, hsplit,
      seqRun_stops_at_filtered pre m post hpre hm]
  have hlaunch := Call_launched_of_abort en e (by rw [hrun])
  exact ⟨by rw [hrun], by rw [hrun], by rw [hrun], by rw [hrun],
    hlaunch.1, hlaunch.2⟩

/-- C2 witness: with a nil-returning `*Base` middleware (serial 0), a
filtering typed middleware (serial 1) and a nil-returning `interface{}`
middleware (serial 2), dispatching a typed event invokes only serials 0
and 1, aborts, launches no handler, and fires no callback. -/
theorem filtered_middleware_stops_dispatch_witness :
    (gmApplicable regsF .messageCreate
        = [⟨0, .ok⟩] ++ ⟨1, .filtered⟩ :: [⟨2, .ok⟩]) ∧
      (Call enF (.plain .messageCreate)).gmRun.invoked
        = [⟨0, .ok⟩, ⟨1, .filtered⟩] ∧
      (Call enF (.plain .messageCreate)).gmRun.abort = true ∧
      (Call enF (.plain .messageCreate)).gmRun.errorReports = 0 ∧
      (Call enF (.plain .messageCreate)).gmRun.panicReports = 0 ∧
      (Call enF (.plain .messageCreate)).rawLaunched = [] := by
  have h := filtered_middleware_stops_dispatch regsF enF
    (.plain .messageCreate) [⟨0, .ok⟩] ⟨1, .filtered⟩ [⟨2, .ok⟩]
    rfl (by decide) (by decide) (by decide)
  exact ⟨by decide, h.1, h.2.1, h.2.2.1, h.2.2.2.1, h.2.2.2.2.2⟩

/-! ## Guild lifecycle tracker lemmas -/

/-- Membership after a `GuildIDSet.Add`. -/
theorem mem_setAdd (s : List GuildID) (x g : GuildID) :
    g ∈ setAdd s x ↔ g ∈ s ∨ g = x := by
  by_cases h : x ∈ s
  · simp only [setAdd, if_pos h]
    constructor
    · exact Or.inl
    · rintro (hg | rfl)
      · exact hg
      · exact h
  · simp [setAdd, if_neg h]

/-- Membership after `handleReady`'s loop over the snapshot. -/
theorem mem_foldl_setAdd (gs : List (GuildID × Bool)) :
    ∀ (s : List GuildID) (g : GuildID),
      g ∈ gs.foldl (fun s p => setAdd s p.1) s →
        g ∈ s ∨ ∃ p ∈ gs, p.1 = g := by
  induction gs with
  | nil => intro s g hg; exact Or.inl hg
  | cons p rest ih =>
    intro s g hg
    rw [List.foldl_cons] at hg
    rcases ih (setAdd s p.1) g hg with hg | ⟨q, hq, hqg⟩
    · rcases (mem_setAdd s p.1 g).mp hg with hg | rfl
      · exact Or.inl hg
      · exact Or.inr ⟨p, List.mem_cons_self p rest, rfl⟩
    · exact Or.inr ⟨q, List.mem_cons_of_mem p hq, hqg⟩

/-- `Call` updates the engine exactly as the raw event's tracker
bookkeeping dictates. -/
theorem Call_engine (en : Engine) :
    (∀ gs, (Call en (.ready gs)).engine = handleReady en gs) ∧
      (∀ g, (Call en (.guildCreate g)).engine = (handleGuildCreate en g).1) ∧
      (∀ g u, (Call en (.guildDelete g u)).engine
        = (handleGuildDelete en g u).1) ∧
      (∀ t, (Call en (.plain t)).engine = en) :=
  ⟨fun _ => rfl, fun _ => rfl, fun _ _ => rfl, fun _ => rfl⟩

/-- The per-event synthesized situational event of `Call`. -/
theorem Call_sitEvent (en : Engine) :
    (∀ g, (Call en (.guildCreate g)).sitEvent
        = some (handleGuildCreate en g).2) ∧
      (∀ g u, (Call en (.guildDelete g u)).sitEvent
        = some (handleGuildDelete en g u).2) :=
  ⟨fun _ => rfl, fun _ _ => rfl⟩

/-- C3 counterexample: `GuildDelete(G, unavailable=false)` does NOT
reset G's tracked state to unknown — it only clears an unavailable mark.
After `Ready` announces guild 7 and a non-unavailable `GuildDelete(7)`
follows, 7 is still pending sync, and a later `GuildCreate(7)`
synthesizes `GuildReady` where the claim requires the fresh-guild
`GuildJoin`. -/
theorem guild_delete_keeps_pending_mark_cex :
    7 ∈ (runCalls engine0
        [.ready [(7, true)], .guildDelete 7 false]).1.unreadyGuilds ∧
      (runCalls engine0
          [.ready [(7, true)], .guildDelete 7 false, .guildCreate 7]).2
        = [.guildLeave, .guildReady] := by decide

/-- C3 amended: `GuildCreate(G)` synthesizes exactly one situational
event — `GuildAvailable` when G is marked unavailable (clearing that
mark), else `GuildReady` when G is pending sync (clearing that mark),
else `GuildJoin`; `GuildDelete(G, unavailable=true)` synthesizes
`GuildUnavailable` and marks G unavailable; and
`GuildDelete(G, unavailable=false)` synthesizes `GuildLeave` and clears
an unavailable mark but leaves a pending-sync (Ready) mark intact. -/
theorem guild_lifecycle_classification (en : Engine) (g : GuildID) :
    (g ∈ en.unavailableGuilds →
      (Call en (.guildCreate g)).sitEvent = some .guildAvailable ∧
        (Call en (.guildCreate g)).engine.unavailableGuilds
          = en.unavailableGuilds.erase g ∧
        (Call en (.guildCreate g)).engine.unreadyGuilds
          = en.unreadyGuilds) ∧
      (g ∉ en.unavailableGuilds → g ∈ en.unreadyGuilds →
        (Call en (.guildCreate g)).sitEvent = some .guildReady ∧
          (Call en (.guildCreate g)).engine.unreadyGuilds
            = en.unreadyGuilds.erase g ∧
          (Call en (.guildCreate g)).engine.unavailableGuilds
            = en.unavailableGuilds) ∧
      (g ∉ en.unavailableGuilds → g ∉ en.unreadyGuilds →
        (Call en (.guildCreate g)).sitEvent = some .guildJoin ∧
          (Call en (.guildCreate g)).engine = en) ∧
      ((Call en (.guildDelete g true)).sitEvent = some .guildUnavailable ∧
        (Call en (.guildDelete g true)).engine.unavailableGuilds
          = setAdd en.unavailableGuilds g ∧
        (Call en (.guildDelete g true)).engine.unreadyGuilds
          = en.unreadyGuilds) ∧
      ((Call en (.guildDelete g false)).sitEvent = some .guildLeave ∧
        (Call en (.guildDelete g false)).engine.unavailableGuilds
          = en.unavailableGuilds.erase g ∧
        (Call en (.guildDelete g false)).engine.unreadyGuilds
          = en.unreadyGuilds) := by
  refine ⟨fun h1 => ?_, fun h1 h2 => ?_, fun h1 h2 => ?_, ?_, ?_⟩
  · rw [(Call_sitEvent en).1, (Call_engine en).2.1]
    simp [handleGuildCreate, setDelete, h1]
  · rw [(Call_sitEvent en).1, (Call_engine en).2.1]
    simp [handleGuildCreate, setDelete, h1, h2]
  · rw [(Call_sitEvent en).1, (Call_engine en).2.1]
    simp [handleGuildCreate, setDelete, h1, h2]
  · rw [(Call_sitEvent en).2, (Call_engine en).2.2.1]
    simp [handleGuildDelete, setDelete]
  · rw [(Call_sitEvent en).2, (Call_engine en).2.2.1]
    simp [handleGuildDelete, setDelete]

/-- C3 witness for the amended claim, on the tracker state where guild 3
is pending sync: `GuildCreate(3)` synthesizes `GuildReady`, and a
non-unavailable `GuildDelete(3)` would leave the pending-sync mark in
place. -/
theorem guild_lifecycle_classification_witness :
    (3 ∉ enPend.unavailableGuilds ∧ 3 ∈ enPend.unreadyGuilds) ∧
      (Call enPend (.guildCreate 3)).sitEvent = some .guildReady ∧
      (Call enPend (.guildDelete 3 false)).engine.unreadyGuilds
        = enPend.unreadyGuilds :=
  ⟨⟨by decide, by decide⟩,
    ((guild_lifecycle_classification enPend 3).2.1 (by decide) (by decide)).1,
    (guild_lifecycle_classification enPend 3).2.2.2.2.2.2⟩

/-- C7 counterexample: after `Ready` announces guild 7 and an
unavailable `GuildDelete(7)` follows, guild 7 is a member of BOTH
tracker sets at once. -/
theorem tracker_sets_overlap_cex :
    7 ∈ (runCalls engine0
        [.ready [(7, true)], .guildDelete 7 true]).1.unreadyGuilds ∧
      7 ∈ (runCalls engine0
        [.ready [(7, true)], .guildDelete 7 true]).1.unavailableGuilds := by
  decide

/-- C7 amended: the two tracker sets stay disjoint along every event
history in which no Ready snapshot lists a guild currently marked
unavailable and no unavailable GuildDelete targets a guild currently
pending sync (the code never removes from the other set on these two
transitions, so such histories are exactly where the invariant is
maintained). -/
theorem tracker_sets_disjoint (evs : List Event) :
    ∀ en, disjointGuildSets en → goodRun en evs = true →
      disjointGuildSets (runCalls en evs).1 := by
  induction evs with
  | nil => intro en hd _; simpa [runCalls] using hd
  | cons e es ih =>
    intro en hd hg
    simp only [goodRun, Bool.and_eq_true] at hg
    obtain ⟨hok, hg⟩ := hg
    have hrest : (runCalls en (e :: es)).1
        = (runCalls (Call en e).engine es).1 := by
      simp [runCalls]
    rw [hrest]
    refine ih (Call en e).engine ?_ hg
    cases e with
    | ready gs =>
      intro g hgmem
      rw [(Call_engine en).1] at hgmem ⊢
      simp only [handleReady] at hgmem ⊢
      simp only [stepOK, List.all_eq_true, decide_eq_true_eq] at hok
      rcases mem_foldl_setAdd gs en.unreadyGuilds g hgmem with hg' | ⟨p, hp, rfl⟩
      · exact hd g hg'
      · exact hok p hp
    | guildCreate g' =>
      intro g hgmem
      rw [(Call_engine en).2.1] at hgmem ⊢
      by_cases h1 : g' ∈ en.unavailableGuilds
      · simp only [handleGuildCreate, setDelete, decide_eq_true_eq,
          if_pos h1] at hgmem ⊢
        exact fun hmem => hd g hgmem (List.mem_of_mem_erase hmem)
      · by_cases h2 : g' ∈ en.unreadyGuilds
        · simp only [handleGuildCreate, setDelete, decide_eq_true_eq,
            if_neg h1, if_pos h2] at hgmem ⊢
          exact hd g (List.mem_of_mem_erase hgmem)
        · simp only [handleGuildCreate, setDelete, decide_eq_true_eq,
            if_neg h1, if_neg h2] at hgmem ⊢
          exact hd g hgmem
    | guildDelete g' u =>
      intro g hgmem
      rw [(Call_engine en).2.2.1] at hgmem ⊢
      cases u with
      | true =>
        simp only [stepOK, decide_eq_true_eq] at hok
        simp [handleGuildDelete] at hgmem ⊢
        intro hmem
        rcases (mem_setAdd en.unavailableGuilds g' g).mp hmem with hmem | rfl
        · exact hd g hgmem hmem
        · exact hok hgmem
      | false =>
        simp [handleGuildDelete, setDelete] at hgmem ⊢
        exact fun hmem => hd g hgmem (List.mem_of_mem_erase hmem)
    | plain t =>
      intro g hgmem
      rw [(Call_engine en).2.2.2] at hgmem ⊢
      exact hd g hgmem

/-- C7 witness for the amended claim: a concrete well-behaved history
keeps the sets disjoint. -/
theorem tracker_sets_disjoint_witness :
    (disjointGuildSets engine0 ∧ goodRun engine0 evsGood = true) ∧
      disjointGuildSets (runCalls engine0 evsGood).1 :=
  ⟨⟨by decide, by decide⟩,
    tracker_sets_disjoint evsGood engine0 (by decide) (by decide)⟩

/-! ## Directness of the guild dispatches (C4) -/

/-- The tracker bookkeeping never touches the handler table. -/
theorem handleGuildCreate_handlers (en : Engine) (g : GuildID) :
    (handleGuildCreate en g).1.handlers = en.handlers := by
  simp only [handleGuildCreate]
  split <;> (try split) <;> rfl

/-- Likewise for guild deletes. -/
theorem handleGuildDelete_handlers (en : Engine) (g : GuildID) (u : Bool) :
    (handleGuildDelete en g u).1.handlers = en.handlers := by
  simp only [handleGuildDelete]
  split <;> rfl

/-- An empty middleware run: no invocation, no abort, no report. -/
theorem callGlobalMiddlewares_nil :
    callGlobalMiddlewares [] [] [] = ⟨[], false, 0, 0⟩ := by
  simp [callGlobalMiddlewares]

/-- With no global middlewares registered, every dispatch's middleware
run is empty and non-aborting. -/
theorem gmRun_of_nil_gms (en : Engine) (e : Event) (h : en.gms = []) :
    callGlobalMiddlewares (tblGet en.gms .iface) (tblGet en.gms .base)
      (tblGet en.gms e.ty) = ⟨[], false, 0, 0⟩ := by
  rw [h]
  simpa [tblGet] using callGlobalMiddlewares_nil

/-- C4 counterexample: with a single "any" (`interface{}`) handler
registered and no middlewares, dispatching a raw GuildCreate launches NO
handler from the raw event's own fan-out — the raw dispatch is the
direct one — while the synthesized GuildJoin dispatch is what reaches
the "any" handler; the claim asserts the exact opposite assignment. -/
theorem guild_raw_dispatch_skips_any_cex :
    (Call enAny (.guildCreate 5)).rawLaunched = [] ∧
      (Call enAny (.guildCreate 5)).sitEvent = some .guildJoin ∧
      (Call enAny (.guildCreate 5)).sitLaunched = [ghAny] := by
  have h2 := gmRun_of_nil_gms enAny (.guildCreate 5) rfl
  simp only [Call]
  rw [h2]
  decide

/-- C4 amended: for a raw GuildCreate/GuildDelete not aborted by global
middlewares, the RAW event's fan-out is the direct one — it invokes only
the raw category's typed handlers, bypassing `interface{}` and `*Base` —
while the synthesized situational event is dispatched non-directly,
reaching the `interface{}` and `*Base` handlers in addition to its own
typed handlers. -/
theorem guild_dispatch_directness (en : Engine) (g : GuildID) (u : Bool)
    (hc : (Call en (.guildCreate g)).gmRun.abort = false)
    (hd : (Call en (.guildDelete g u)).gmRun.abort = false) :
    ((Call en (.guildCreate g)).rawLaunched
        = tblGet en.handlers (.ev .guildCreate) ∧
      ∀ sit, (Call en (.guildCreate g)).sitEvent = some sit →
        (Call en (.guildCreate g)).sitLaunched
          = tblGet en.handlers .iface ++ tblGet en.handlers .base ++
            tblGet en.handlers (.ev sit)) ∧
      ((Call en (.guildDelete g u)).rawLaunched
          = tblGet en.handlers (.ev .guildDelete) ∧
        ∀ sit, (Call en (.guildDelete g u)).sitEvent = some sit →
          (Call en (.guildDelete g u)).sitLaunched
            = tblGet en.handlers .iface ++ tblGet en.handlers .base ++
              tblGet en.handlers (.ev sit)) := by
  simp only [Call, Event.ty, Event.cat] at hc hd ⊢
  refine ⟨⟨?_, ?_⟩, ?_, ?_⟩
  · simp [call, hc, handleGuildCreate_handlers]
  · intro sit hsit
    obtain rfl : (handleGuildCreate en g).2 = sit := by simpa using hsit
    simp [call, hc, handleGuildCreate_handlers, List.append_assoc]
  · simp [call, hd, handleGuildDelete_handlers]
  · intro sit hsit
    obtain rfl : (handleGuildDelete en g u).2 = sit := by simpa using hsit
    simp [call, hd, handleGuildDelete_handlers, List.append_assoc]

/-- C4 witness for the amended claim, on the engine with one "any"
handler. -/
theorem guild_dispatch_directness_witness :
    ((Call enAny (.guildCreate 5)).gmRun.abort = false ∧
      (Call enAny (.guildDelete 5 false)).gmRun.abort = false) ∧
      (Call enAny (.guildCreate 5)).rawLaunched
        = tblGet enAny.handlers (.ev .guildCreate) := by
  have h1 : (Call enAny (.guildCreate 5)).gmRun.abort = false := by
    rw [Call_gmRun, gmRun_of_nil_gms enAny _ rfl]
  have h2 : (Call enAny (.guildDelete 5 false)).gmRun.abort = false := by
    rw [Call_gmRun, gmRun_of_nil_gms enAny _ rfl]
  exact ⟨⟨h1, h2⟩, (guild_dispatch_directness enAny 5 false h1 h2).1.1⟩

/-! ## One-shot handlers (C5) -/

/-- C5 counterexample: a one-shot handler is NOT removed from the
registration table by a dispatch of its category.  Here the chain
passes, the body runs, and the removal closure runs — yet the handler is
still stored under its event type afterwards, because the closure scans
`handlers[handlerType]` instead of `handlers[eventType]`. -/
theorem once_handler_not_removed_cex :
    (execHandler (runChain ghOnce.mwRets) ghOnce.once ghOnce.onceUsed
          ghOnce.ret).1.bodyRan = true ∧
      (execHandler (runChain ghOnce.mwRets) ghOnce.once ghOnce.onceUsed
          ghOnce.ret).1.rmCalled = true ∧
      (applyHandlerExecs enOnce.handlers
          (Call enOnce (.plain .messageCreate)).rawLaunched).map
          (fun p => (p.1, p.2.map GenericHandler.id))
        = [(Ty.ev .messageCreate, [7])] := by
  refine ⟨by decide, by decide, ?_⟩
  have h2 := gmRun_of_nil_gms enOnce (.plain .messageCreate) rfl
  simp only [Call]
  rw [h2]
  decide

/-- Once the `sync.Once` is consumed, no later dispatch runs the
body. -/
theorem execSeq_used_no_body (ret : HRet) (cos : List ChainOut) :
    (execSeq true true ret cos).map (fun ex => ex.bodyRan)
      = cos.map (fun _ => false) := by
  induction cos with
  | nil => rfl
  | cons co rest ih => cases co <;> simp [execSeq, execHandler, ih]

/-- C5 amended: a one-shot handler's body runs exactly on the first
dispatch whose per-handler middleware chain passes: a filtered dispatch
leaves it armed for the next event (as `AddHandlerOnce`'s documentation
states), and after the first pass the run-once guard — not table
removal, which never succeeds — prevents every later invocation. -/
theorem once_handler_body_at_most_once (ret : HRet) (cos : List ChainOut) :
    (execSeq true false ret cos).map (fun ex => ex.bodyRan)
      = markFirstPass cos := by
  induction cos with
  | nil => rfl
  | cons co rest ih =>
    cases co with
    | pass =>
      cases ret <;>
        simp [execSeq, execHandler, markFirstPass, execSeq_used_no_body]
    | stop => simpa [execSeq, execHandler, markFirstPass] using ih
    | panicked => simpa [execSeq, execHandler, markFirstPass] using ih

/-! ## Removal tokens (C6) -/

/-- C6: the removal token returned by `AddHandler` removes nothing.  It
scans `handlers[handlerType]` (the registered func's own type) while the
handler was appended to `handlers[eventType]`, so after registering a
valid handler and invoking its token — once or twice — the table is
unchanged and the next dispatch of the category still launches the
handler. -/
theorem removal_token_removes_nothing :
    (addHandlerE engine0 fnMsgCreate false [] HRet.ok).2
        = some (.fn (.ev .messageCreate), 0) ∧
      (rmE enReg (.fn (.ev .messageCreate), 0)).handlers = enReg.handlers ∧
      (rmE (rmE enReg (.fn (.ev .messageCreate), 0))
          (.fn (.ev .messageCreate), 0)).handlers = enReg.handlers ∧
      ((Call (rmE enReg (.fn (.ev .messageCreate), 0))
            (.plain .messageCreate)).rawLaunched).map GenericHandler.id
        = [0] := by
  refine ⟨by decide, by decide, by decide, ?_⟩
  have h2 := gmRun_of_nil_gms (rmE enReg (.fn (.ev .messageCreate), 0))
    (.plain .messageCreate) (by decide)
  simp only [Call]
  rw [h2]
  decide

/-! ## Registration validation (C9) -/

/-- C9: the validation outcomes on concrete function shapes.  A
no-return handler/middleware of the documented shape is accepted, and a
wrong first parameter is rejected with an error — but a handler of the
documented `func(*State, e) error` shape PANICS inside `reflect`
(`Out(1)` with one result), the same shape as a per-handler middleware
also panics, and `AddGlobalMiddleware` REJECTS an error-returning
middleware because `errorType` is the nil `reflect.Type`. -/
theorem registration_validation_outcomes :
    checkHandlerFunc ⟨[.state, .ev .messageCreate], []⟩
        = .accepted (.ev .messageCreate) ∧
      checkGlobalMiddlewareFunc ⟨[.state, .ev .messageCreate], []⟩
        = some (.ev .messageCreate) ∧
      checkHandlerFunc ⟨[.ev .messageCreate, .state], []⟩ = .rejected ∧
      checkHandlerFunc ⟨[.state, .ev .messageCreate], [.errIface]⟩
        = .goPanic ∧
      checkMiddlewareFunc ⟨[.state, .ev .messageCreate], [.errIface]⟩
          (.ev .messageCreate) = .goPanic ∧
      checkGlobalMiddlewareFunc ⟨[.state, .ev .messageCreate], [.errIface]⟩
        = none := by decide

/-! ## Intents derivation (C8) -/

/-- Destination of an entry of `tblAppend tbl k x`: an untouched old
entry, or the entry holding `x` appended to the old list under `k` (the
empty list when `k` was absent). -/
theorem mem_tblAppend {α : Type} (tbl : List (Ty × List α)) (k : Ty) (x : α)
    (p : Ty × List α) (hp : p ∈ tblAppend tbl k x) :
    p ∈ tbl ∨ ∃ l, p = (k, l ++ [x]) ∧ ((k, l) ∈ tbl ∨ l = []) := by
  induction tbl with
  | nil =>
    simp only [tblAppend, List.mem_singleton] at hp
    exact Or.inr ⟨[], by simp [hp], Or.inr rfl⟩
  | cons q rest ih =>
    by_cases h : q.1 = k
    · simp only [tblAppend, if_pos h] at hp
      rcases List.mem_cons.mp hp with rfl | hp
      · refine Or.inr ⟨q.2, by rw [h], Or.inl ?_⟩
        have : (k, q.2) = q := by
          rw [← h]
        rw [this]
        exact List.mem_cons_self q rest
      · exact Or.inl (List.mem_cons_of_mem q hp)
    · simp only [tblAppend, if_neg h] at hp
      rcases List.mem_cons.mp hp with rfl | hp
      · exact Or.inl (List.mem_cons_self p rest)
      · rcases ih hp with h1 | ⟨l, rfl, h2⟩
        · exact Or.inl (List.mem_cons_of_mem q h1)
        · refine Or.inr ⟨l, rfl, ?_⟩
          rcases h2 with h2 | rfl
          · exact Or.inl (List.mem_cons_of_mem q h2)
          · exact Or.inr rfl

/-- Appending never creates an empty entry. -/
theorem tblAppend_nonempty {α : Type} (tbl : List (Ty × List α)) (k : Ty)
    (x : α) (h : ∀ p ∈ tbl, p.2 ≠ []) :
    ∀ p ∈ tblAppend tbl k x, p.2 ≠ [] := by
  intro p hp
  rcases mem_tblAppend tbl k x p hp with hp | ⟨l, rfl, _⟩
  · exact h p hp
  · simp

/-- A property of every stored element survives an append whose new
element has it. -/
theorem tblAppend_forall {α : Type} (P : α → Prop)
    (tbl : List (Ty × List α)) (k : Ty) (x : α)
    (h : ∀ p ∈ tbl, ∀ a ∈ p.2, P a) (hx : P x) :
    ∀ p ∈ tblAppend tbl k x, ∀ a ∈ p.2, P a := by
  intro p hp a ha
  rcases mem_tblAppend tbl k x p hp with hp | ⟨l, rfl, hl⟩
  · exact h p hp a ha
  · simp only [List.mem_append, List.mem_singleton] at ha
    rcases ha with ha | rfl
    · rcases hl with hl | rfl
      · exact h _ hl a ha
      · cases ha
    · exact hx

/-- An old token stays safe across an append of a fresh identity. -/
theorem tblAppend_tokSafe (tbl : HandlerTable) (k : Ty)
    (x : GenericHandler) (tok : Ty × Nat) (h : tokSafe tbl tok)
    (hx : x.id ≠ tok.2) : tokSafe (tblAppend tbl k x) tok := by
  intro p hp hkey gh hgh
  rcases mem_tblAppend tbl k x p hp with hp | ⟨l, rfl, hl⟩
  · exact h p hp hkey gh hgh
  · simp only [List.mem_append, List.mem_singleton] at hgh
    rcases hgh with hgh | rfl
    · rcases hl with hl | rfl
      · exact h _ hl hkey gh hgh
      · cases hgh
    · exact hx

/-- The token handed out for a fresh registration is safe: the handler
went in under its event type, the token's key is the handler value's own
(function or channel) type, and those never coincide. -/
theorem tblAppend_new_tokSafe (tbl : HandlerTable) (et ht : Ty)
    (gh : GenericHandler) (hne : ht ≠ et)
    (hbound : ∀ p ∈ tbl, ∀ a ∈ p.2, a.id < gh.id) :
    tokSafe (tblAppend tbl et gh) (ht, gh.id) := by
  intro p hp hkey a ha
  rcases mem_tblAppend tbl et gh p hp with hp | ⟨l, rfl, _⟩
  · exact Nat.ne_of_lt (hbound p hp a ha)
  · exact absurd hkey (fun hk => hne hk.symm)

/-- The registered value's own type never equals the event type it was
stored under. -/
theorem addHandlerClassify_key (v : GoVal) (et ht : Ty) (chan : Bool)
    (h : addHandlerClassify v = .ok et ht chan) : ht ≠ et := by
  have hcase : ht = Ty.fn et ∨ ht = Ty.chanOf et := by
    cases v with
    | chanVal elem =>
      simp only [addHandlerClassify, AddRes.ok.injEq] at h
      obtain ⟨rfl, rfl, -⟩ := h
      exact Or.inr rfl
    | fnVal f =>
      simp only [addHandlerClassify] at h
      cases hc : checkHandlerFunc f <;> rw [hc] at h <;>
        simp only [AddRes.ok.injEq] at h
      · obtain ⟨rfl, rfl, -⟩ := h
        exact Or.inl rfl
      · cases h
      · cases h
    | otherVal => simp [addHandlerClassify] at h
  rcases hcase with rfl | rfl
  · exact Ty.fn_ne et
  · exact Ty.chanOf_ne et

/-- Removing a never-stored identity changes nothing. -/
theorem removeFirstId_noop (l : List GenericHandler) (i : Nat)
    (h : ∀ gh ∈ l, gh.id ≠ i) : removeFirstId l i = l := by
  induction l with
  | nil => rfl
  | cons gh rest ih =>
    rw [removeFirstId, if_neg (h gh (List.mem_cons_self gh rest)),
      ih (fun a ha => h a (List.mem_cons_of_mem gh ha))]

/-- A safe token's removal attempt leaves the table unchanged — the
key/identity pair it scans for is never stored together. -/
theorem rmHandler_noop (tbl : HandlerTable) (tok : Ty × Nat)
    (h : tokSafe tbl tok) : rmHandler tbl tok.1 tok.2 = tbl := by
  induction tbl with
  | nil => rfl
  | cons p rest ih =>
    have hrest := ih (fun q hq => h q (List.mem_cons_of_mem p hq))
    simp only [rmHandler, List.map_cons]
    have htail : List.map (fun q =>
        if q.1 = tok.1 then (q.1, removeFirstId q.2 tok.2) else q) rest
        = rest := by
      simpa [rmHandler] using hrest
    rw [htail]
    by_cases hk : p.1 = tok.1
    · rw [if_pos hk,
        removeFirstId_noop p.2 tok.2 (h p (List.mem_cons_self p rest) hk)]
    · rw [if_neg hk]

/-- A safe token's `rm()` is a complete no-op on the engine. -/
theorem rmE_noop (en : Engine) (tok : Ty × Nat)
    (h : tokSafe en.handlers tok) : rmE en tok = en := by
  unfold rmE
  rw [rmHandler_noop en.handlers tok h]

/-- `AddHandler` preserves the engine invariants and hands out a safe
token. -/
theorem addHandlerE_WF (en : Engine) (toks : List (Ty × Nat)) (v : GoVal)
    (o : Bool) (m : List MwRet) (r : HRet) (h : EngineWF en toks) :
    EngineWF (addHandlerE en v o m r).1
      (toks ++ (addHandlerE en v o m r).2.toList) := by
  obtain ⟨h1, h2, h3, h4⟩ := h
  unfold addHandlerE
  cases hcl : addHandlerClassify v with
  | rejected =>
    simpa using ⟨h1, h2, h3, h4⟩
  | goPanic =>
    simpa using ⟨h1, h2, h3, h4⟩
  | ok et ht chan =>
    simp only [Option.toList_some]
    refine ⟨?_, h2, ?_, ?_⟩
    · exact tblAppend_nonempty en.handlers et _ h1
    · intro tok htok
      rcases List.mem_append.mp htok with htok | htok
      · obtain ⟨hsafe, hlt⟩ := h3 tok htok
        exact ⟨tblAppend_tokSafe en.handlers et _ tok hsafe
          (Nat.ne_of_gt hlt), Nat.lt_succ_of_lt hlt⟩
      · rcases List.mem_singleton.mp htok with rfl
        refine ⟨tblAppend_new_tokSafe en.handlers et ht
          ⟨en.nextId, ht, chan, o, false, m, r⟩
          (addHandlerClassify_key v et ht chan hcl) h4, Nat.lt_succ_self _⟩
    · exact tblAppend_forall (fun a => a.id < en.nextId + 1) en.handlers et
        ⟨en.nextId, ht, chan, o, false, m, r⟩
        (fun p hp a ha => Nat.lt_succ_of_lt (h4 p hp a ha))
        (Nat.lt_succ_self en.nextId)

/-- `AddGlobalMiddleware` preserves the engine invariants. -/
theorem addGlobalMiddlewareE_WF (en : Engine) (toks : List (Ty × Nat))
    (f : GoFunc) (r : MwRet) (h : EngineWF en toks) :
    EngineWF (addGlobalMiddlewareE en f r) toks := by
  obtain ⟨h1, h2, h3, h4⟩ := h
  unfold addGlobalMiddlewareE
  cases hc : checkGlobalMiddlewareFunc f with
  | none => exact ⟨h1, h2, h3, h4⟩
  | some et =>
    exact ⟨h1, tblAppend_nonempty en.gms et _ h2, h3, h4⟩

/-- `applyOps` preserves the engine invariants from any well-formed
start. -/
theorem applyOps_WF (ops : List RegOp) :
    ∀ en toks, EngineWF en toks →
      EngineWF (applyOps (en, toks) ops).1 (applyOps (en, toks) ops).2 := by
  induction ops with
  | nil => intro en toks h; exact h
  | cons op rest ih =>
    intro en toks h
    cases op with
    | addH v o m r =>
      simp only [applyOps]
      exact ih _ _ (addHandlerE_WF en toks v o m r h)
    | addGM f r =>
      simp only [applyOps]
      exact ih _ _ (addGlobalMiddlewareE_WF en toks f r h)
    | rmTok i =>
      simp only [applyOps]
      cases hget : toks.get? i with
      | some tok =>
        have htok : tok ∈ toks := List.get?_mem hget
        have hnoop : rmE en tok = en := rmE_noop en tok (h.2.2.1 tok htok).1
        show EngineWF (applyOps (rmE en tok, toks) rest).1
          (applyOps (rmE en tok, toks) rest).2
        rw [hnoop]
        exact ih _ _ h
      | none =>
        show EngineWF (applyOps (en, toks) rest).1
          (applyOps (en, toks) rest).2
        exact ih _ _ h

/-- Pulling the accumulator out of an OR-fold. -/
theorem foldl_lor_init {β : Type} (f : β → Nat) (l : List β) :
    ∀ i, l.foldl (fun a k => a ||| f k) i
      = i ||| l.foldl (fun a k => a ||| f k) 0 := by
  induction l with
  | nil => intro i; simp
  | cons k rest ih =>
    intro i
    rw [List.foldl_cons, List.foldl_cons, ih (i ||| f k), ih (0 ||| f k),
      Nat.zero_or, Nat.lor_assoc]

/-- An OR-fold over an append splits. -/
theorem foldl_lor_append {β : Type} (f : β → Nat) (l1 l2 : List β) :
    (l1 ++ l2).foldl (fun a k => a ||| f k) 0
      = l1.foldl (fun a k => a ||| f k) 0
        ||| l2.foldl (fun a k => a ||| f k) 0 := by
  rw [List.foldl_append, foldl_lor_init]

/-- Filtering out only zero-mask elements does not change an OR-fold. -/
theorem foldl_lor_filter_zero {β : Type} (f : β → Nat) (p : β → Bool)
    (l : List β) (h : ∀ k ∈ l, p k = false → f k = 0) :
    (l.filter p).foldl (fun a k => a ||| f k) 0
      = l.foldl (fun a k => a ||| f k) 0 := by
  induction l with
  | nil => rfl
  | cons k rest ih =>
    have ih' := ih (fun q hq hpq => h q (List.mem_cons_of_mem k hq) hpq)
    cases hp : p k with
    | true =>
      rw [List.filter_cons_of_pos hp, List.foldl_cons, List.foldl_cons,
        foldl_lor_init f (rest.filter p) (0 ||| f k),
        foldl_lor_init f rest (0 ||| f k), ih']
    | false =>
      rw [List.filter_cons_of_neg (by simp [hp]), List.foldl_cons,
        foldl_lor_init f rest (0 ||| f k),
        h k (List.mem_cons_self k rest) hp, ih']
      simp

/-- `interface{}` and `*Base` carry no intents. -/
theorem eventIntents_pseudo : eventIntents .iface = 0 ∧ eventIntents .base = 0 :=
  ⟨rfl, rfl⟩

/-- On a table with no empty entry, `DeriveIntents`' key iteration
computes exactly the spec's union over live non-pseudo categories. -/
theorem DeriveIntents_eq_of_nonempty (en : Engine)
    (h1 : ∀ p ∈ en.handlers, p.2 ≠ []) (h2 : ∀ p ∈ en.gms, p.2 ≠ []) :
    DeriveIntents en = liveIntents en := by
  unfold DeriveIntents liveIntents
  have hf1 : en.handlers.filter (fun p => !p.2.isEmpty) = en.handlers := by
    rw [List.filter_eq_self]
    intro p hp
    simpa using h1 p hp
  have hf2 : en.gms.filter (fun p => !p.2.isEmpty) = en.gms := by
    rw [List.filter_eq_self]
    intro p hp
    simpa using h2 p hp
  have hzero : ∀ k : Ty,
      (!(k = Ty.iface ∨ k = Ty.base : Bool)) = false → eventIntents k = 0 := by
    intro k hk
    have himp : ¬k = Ty.iface → k = Ty.base := by simpa using hk
    by_cases hik : k = Ty.iface
    · rw [hik]; rfl
    · rw [himp hik]; rfl
  rw [hf1, hf2, List.filter_append, foldl_lor_append,
    foldl_lor_filter_zero eventIntents _ _ (fun k _ hk => hzero k hk),
    foldl_lor_filter_zero eventIntents _ _ (fun k _ hk => hzero k hk),
    List.foldl_map, List.foldl_map,
    foldl_lor_init (fun p => eventIntents p.1) en.handlers]

/-- C8: after every sequence of handler registrations, global-middleware
registrations and removal-token invocations, `DeriveIntents` returns
exactly the bitwise union of the static per-category intent masks of the
categories that currently hold at least one live handler or global
middleware, with the `interface{}` ("any") and `*Base` ("context-only")
pseudo-categories contributing nothing.  (No removal ever empties an
entry: the removal tokens scan a key that never holds their handler.) -/
theorem deriveIntents_matches_live_registrations (ops : List RegOp) :
    DeriveIntents (applyOps (engine0, []) ops).1
      = liveIntents (applyOps (engine0, []) ops).1 := by
  have h0 : EngineWF engine0 [] := by
    refine ⟨?_, ?_, ?_, ?_⟩ <;> intro p hp <;> cases hp
  have h := applyOps_WF ops engine0 [] h0
  exact DeriveIntents_eq_of_nonempty _ h.1 h.2.1

/-! ## Shutdown and the WaitGroup (C10) -/

/-- C10: a handler goroutine whose middleware chain filters — and one
whose body panics — skips `wg.Done()` even though the goroutine itself
finishes, so after such a dispatch the WaitGroup counter never returns
to zero and `Close`'s `wg.Wait()` blocks forever.  Here three handlers
are launched and all three goroutines run to completion, but only the
normal one reaches `wg.Done()`: the residual count is 2 and `Close`
cannot return. -/
theorem close_blocks_after_filtered_or_panicking_handler :
    (Call enWg (.plain .messageCreate)).rawLaunched.length = 3 ∧
      handlerGoroutineDone ghFiltered = false ∧
      handlerGoroutineDone ghPanics = false ∧
      handlerGoroutineDone ghNormal = true ∧
      wgResidual (Call enWg (.plain .messageCreate)).rawLaunched = 2 ∧
      closeReturns
          (wgResidual (Call enWg (.plain .messageCreate)).rawLaunched)
        = false := by
  have h2 := gmRun_of_nil_gms enWg (.plain .messageCreate) rfl
  have hL : (Call enWg (.plain .messageCreate)).rawLaunched
      = [ghFiltered, ghPanics, ghNormal] := by
    simp only [Call]
    rw [h2]
    decide
  rw [hL]
  decide

end Disstate
